import Mathlib

/-!
Shallow embedding of the core of `TL_functions.py` (the TL project): the
random weak-composition sampler, the deduplicating sample collector, the
time-bounded variance sampling engine, the z-score comparator, the
median-of-slopes summary entry of `TL_analysis`, and the inclusion filter.

Modelling conventions:
* Python ints are `Nat`/`Int`; Python floats are idealised as `ℚ`,
  with the float values `nan`/`inf` modelled as `Option.none`.
* Randomness is made explicit: `np.random.randint(0, q, n - 1)` is modelled
  by a caller-supplied list `rs` of the values the generator produced, and a
  loop that draws repeatedly is parametrised by a stream `Nat → List Nat`
  giving the values drawn at each iteration.
* A Python exception that escapes a function is modelled by `Option.none`
  or by `Except.error`; `sys.exit` (the fatal internal-consistency branch of
  `rand_compositions`) is an `Except.error` carrying the values that the
  diagnostic message prints.
* `sorted(...)`/`list.sort()` are modelled with `List.insertionSort (· ≤ ·)`:
  on lists of integers every ascending sort returns the same list, so this
  is extensionally the sort the source performs.
* The SIGALRM-based `time_limit` context manager is modelled cooperatively:
  a parameter `intr : Option Nat` names the loop iteration at whose start
  the pending alarm (if any) fires, raising `TimeoutException`.  Per the
  semantics of `signal.alarm`, `signal.alarm(0)` cancels any pending alarm
  and schedules none, so a time limit of `0` seconds arms no deadline at
  all; this is modelled by discarding `intr` when `t_limit = 0`.
-/

/-- Successive differences: `diffs a [x1, x2, ...] = [x1 - a, x2 - x1, ...]`.
This is the value of the Python list comprehension
`[(indices + [q])[i] - ([0] + indices)[i] for i in range(len(indices)+1)]`
in `RandomComposition_weak`, with `a` the leading sentinel. -/
def diffs : ℤ → List ℤ → List ℤ
  | _, [] => []
  | prev, x :: xs => (x - prev) :: diffs x xs

/-- Model of `RandomComposition_weak(q, n)` (TL_functions.py lines 54-57).
`rs` is the list of values `np.random.randint(0, q, n - 1)` produced.
`np.random.randint` raises `ValueError` when `low >= high` (that is, when
`q = 0`) or when the requested size `n - 1` is negative (`n = 0`); both are
modelled by `none`.  Otherwise the draws are sorted ascending and the parts
are the successive differences with sentinels `0` and `q`. -/
def RandomComposition_weak (q n : Nat) (rs : List Nat) : Option (List ℤ) :=
  if q = 0 ∨ n = 0 then none
  else
    let indices := (List.insertionSort (· ≤ ·) rs).map (fun r : Nat => (r : ℤ))
    some ((List.range (indices.length + 1)).map (fun i =>
      (indices ++ [(q : ℤ)]).getD i 0 - ((0 : ℤ) :: indices).getD i 0))

/-- Abnormal terminations of `rand_compositions` (TL_functions.py lines 59-73):
`valueError` is the `ValueError` propagating out of `np.random.randint`;
`fatal` is the internal-consistency branch, which prints
`zeros, 'error: q=', q, '!=sum(comp)=', sum(comp), 'or n=', n, '!=len(comp)=', len(comp)`
and then terminates the run.  The constructor records exactly the values
that the diagnostic prints. -/
inductive RCError where
  | valueError : RCError
  | fatal (zeros : Bool) (q : Nat) (sumComp : ℤ) (n : Nat) (lenComp : Nat) : RCError
deriving DecidableEq

/-- The `while len(comps) < sample_size` loop of `rand_compositions`: each
iteration draws one composition (iteration `i` consumes `st i`), aborts the
run if it fails the internal-consistency check, and otherwise appends it
sorted in descending order (`comp.sort(); comp.reverse()`).  The loop body
grows the list by exactly one element, so the loop runs `fuel` times when
`fuel` draws are still needed. -/
def rc_loop (q n : Nat) (zeros : Bool) (st : Nat → List Nat) : Nat → Nat → Except RCError (List (List ℤ))
  | _, 0 => .ok []
  | i, fuel + 1 =>
    match RandomComposition_weak q n (st i) with
    | none => .error .valueError
    | some comp =>
      if comp.length ≠ n ∨ comp.sum ≠ (q : ℤ) then
        .error (.fatal zeros q comp.sum n comp.length)
      else
        match rc_loop q n zeros st (i + 1) fuel with
        | .error e => .error e
        | .ok rest => .ok ((List.insertionSort (· ≤ ·) comp).reverse :: rest)

/-- Model of `rand_compositions(q, n, sample_size, zeros)` (lines 59-73):
run the collection loop, then deduplicate by exact value equality
(`set(tuple(x) for x in comps)`).  The iteration order of a Python set is
unspecified, so the deduplicated list is modelled with `List.dedup`, which
returns the same elements without duplicates. -/
def rand_compositions (q n sample_size : Nat) (zeros : Bool) (st : Nat → List Nat) :
    Except RCError (List (List ℤ)) :=
  (rc_loop q n zeros st 0 sample_size).map List.dedup

/-- Model of `np.mean` on a 1-d float array: `nan` (here `none`) on an
empty array. -/
def npMean (xs : List ℚ) : Option ℚ :=
  if xs.length = 0 then none else some (xs.sum / xs.length)

/-- Model of `np.var(xs, ddof = 1)`, the sample variance with Bessel's
correction: the mean of an empty array is `nan`, and for a single element
the quotient is `0/0 = nan`; both are modelled by `none`. -/
def npVarDdof1 (xs : List ℚ) : Option ℚ :=
  if xs.length < 2 then none
  else some ((xs.map (fun x => (x - xs.sum / xs.length) ^ 2)).sum / ((xs.length : ℚ) - 1))

/-- Model of `np.median` on a 1-d float array: sort ascending, take the
middle element for odd length, the average of the two middle elements for
even length, `nan` (`none`) for an empty array.  `np.median` of a scalar
`b` treats it as the one-element array `[b]`. -/
def npMedian (xs : List ℚ) : Option ℚ :=
  if xs.length = 0 then none
  else
    let s := List.insertionSort (· ≤ ·) xs
    if xs.length % 2 = 1 then some (s.getD (xs.length / 2) 0)
    else some ((s.getD (xs.length / 2 - 1) 0 + s.getD (xs.length / 2) 0) / 2)

/-- The two analysis modes of `get_var_for_Q_N`, `sample_var` and
`TL_analysis`: every value of the `analysis` argument other than the string
`partition` selects the composition branch, so the model keeps the
two-valued distinction the code actually makes. -/
inductive Analysis where
  | partition : Analysis
  | composition : Analysis
deriving DecidableEq

/-- One draw of the body of `get_var_for_Q_N` (lines 84-88): in partition
mode `parts.rand_partitions(q, n, 1, 'bottom_up', {}, True)[0]`, where the
external partition library is out of scope and is modelled as the stream
`ps` of the partitions it returns; in composition mode
`rand_compositions(q, n, 1, True)[0]`, with iteration `i` consuming the
randint draws `cs i`. -/
def QN_parts_draw (q n : Nat) (a : Analysis) (ps : Nat → List ℤ) (cs : Nat → List Nat)
    (i : Nat) : Except RCError (List ℤ) :=
  match a with
  | .partition => .ok (ps i)
  | .composition => (rand_compositions q n 1 true (fun _ => cs i)).map (fun l => l.headD [])

/-- The `for Niter in range(sample_size)` loop of `get_var_for_Q_N` under
the `time_limit` context manager: `intr = some i` means the pending alarm
fires at the start of iteration `i`, raising `TimeoutException`, which the
surrounding handler catches, returning the variances accumulated so far.
A non-timeout exception escaping a draw (`RCError`) propagates. -/
def gv_loop (q n : Nat) (a : Analysis) (ps : Nat → List ℤ) (cs : Nat → List Nat)
    (intr : Option Nat) : Nat → Nat → Except RCError (List (Option ℚ))
  | _, 0 => .ok []
  | i, fuel + 1 =>
    if intr = some i then .ok []
    else
      match QN_parts_draw q n a ps cs i with
      | .error e => .error e
      | .ok xs =>
        match gv_loop q n a ps cs intr (i + 1) fuel with
        | .error e => .error e
        | .ok rest => .ok (npVarDdof1 (xs.map (fun x : ℤ => (x : ℚ))) :: rest)

/-- Model of `get_var_for_Q_N(q, n, sample_size, t_limit, analysis)`
(lines 75-92).  `time_limit(t_limit)` calls `signal.alarm(t_limit)`, and
`signal.alarm(0)` cancels any pending alarm and schedules none, so with
`t_limit = 0` no `TimeoutException` can ever fire and the interrupt is
discarded. -/
def get_var_for_Q_N (q n sample_size t_limit : Nat) (a : Analysis)
    (ps : Nat → List ℤ) (cs : Nat → List Nat) (intr : Option Nat) :
    Except RCError (List (Option ℚ)) :=
  gv_loop q n a ps cs (if t_limit = 0 then none else intr) 0 sample_size

/-- The number of iterations the `gv_loop` starting at index `i` with `fuel`
iterations left completes before the alarm (if any) fires. -/
def stop_len (intr : Option Nat) (i fuel : Nat) : Nat :=
  match intr with
  | none => fuel
  | some m => if i ≤ m ∧ m < i + fuel then m - i else fuel

/-- The per-study collection loop of `sample_var` (lines 107-115): walk the
records of the study in order, pairing each record (modelled opaquely as a
value of type `α`) with the variance list `get_var_for_Q_N` returned for it;
a record whose list is shorter than `sample_size` breaks out of the loop
without being appended. -/
def sample_var_rows {α : Type} (sample_size : Nat) :
    List (α × List (Option ℚ)) → List (α × List (Option ℚ))
  | [] => []
  | (rec, vars) :: rest =>
    if vars.length = sample_size then (rec, vars) :: sample_var_rows sample_size rest
    else []

/-- The rows `sample_var` appends to its output file (lines 117-121): the
collected rows if no Q-N combo of the study was omitted
(`len(data_study) == len(var_parts)`), nothing otherwise. -/
def sample_var_written {α : Type} (sample_size : Nat) (data : List (α × List (Option ℚ))) :
    List (α × List (Option ℚ)) :=
  let var_parts := sample_var_rows sample_size data
  if data.length = var_parts.length then var_parts else []

/-- The per-study collection loop of `TL_analysis` (lines 169-175): same
break-on-incomplete structure as `sample_var`, but collecting only the
variance lists. -/
def TL_var_parts (sample_size : Nat) : List (List (Option ℚ)) → List (List (Option ℚ))
  | [] => []
  | v :: rest =>
    if v.length = sample_size then v :: TL_var_parts sample_size rest
    else []

/-- Whether `TL_analysis` reaches its output-writing block (line 177): it
writes its two output files exactly when no Q-N combo was omitted. -/
def TL_analysis_writes (sample_size : Nat) (results : List (List (Option ℚ))) : Bool :=
  results.length == (TL_var_parts sample_size results).length

/-- Model of `get_z_score(emp_var, sim_var_list)` (lines 123-126):
`sd_sim = np.var(sim_var_list, ddof=1) ** 0.5` and the result is
`(emp_var - np.mean(sim_var_list)) / sd_sim`.  The square root of the
sample variance is irrational in general, so the embedding receives
`sd_sim` as an argument (theorems constrain it by `sd_sim * sd_sim`
equalling the sample variance); a `nan` variance or mean propagates to a
`nan` result, and division by `sd_sim = 0` yields `nan` or `±inf`, all
modelled by `none`. -/
def get_z_score (emp_var : ℚ) (sim_var_list : List ℚ) (sd_sim : ℚ) : Option ℚ :=
  match npVarDdof1 sim_var_list, npMean sim_var_list with
  | some _, some m => if sd_sim = 0 then none else some ((emp_var - m) / sd_sim)
  | _, _ => none

/-- The `np.median(b)` entry of the summary row `TL_analysis` prints
(line 211): `b` is the loop variable holding the slope of the last
simulation iteration (`none` when `sample_size = 0`, in which case `b` was
never assigned and the print raises `NameError`), and `np.median` of that
scalar treats it as a one-element array. -/
def TL_median_b_entry (b_list : List ℚ) : Option ℚ :=
  match b_list.getLast? with
  | none => none
  | some b => npMedian [b]

/-- Global constant `Q_MIN = 5` (line 15). -/
def Q_MIN : ℤ := 5

/-- Global constant `N_MIN = 3` (line 16). -/
def N_MIN : ℤ := 3

/-- Global constant `n_MIN = 5` (line 17). -/
def n_MIN : Nat := 5

/-- One record of the Q-N-mean-variance table, restricted to the fields
`inclusion_criteria` filters on; the `mean` and `var` columns enter only
through the regression p-value, which is abstracted below. -/
structure QNRec where
  Q : ℤ
  N : ℤ
deriving DecidableEq

/-- The three values a call to `inclusion_criteria` can return: `True`,
`False`, or — when the count check passes but the significance check fails —
the implicit `None` of falling off the end of the function body. -/
inductive PyRet where
  | pyTrue : PyRet
  | pyFalse : PyRet
  | pyNone : PyRet
deriving DecidableEq

/-- Model of `inclusion_criteria(dat_study, sig)` (lines 216-223).  The
regression `stats.linregress(log mean, log var)` runs on the UNFILTERED
study data and only its p-value is used; it is modelled by the abstract
function `linregress_p` applied to the unfiltered record list.  The data is
then filtered to `N >= N_MIN and Q >= Q_MIN` and the surviving-pair count
compared against `n_MIN`.  When the count check succeeds but the
significance check fails, no `return` statement executes and Python
returns `None`. -/
def inclusion_criteria (linregress_p : List QNRec → ℚ) (dat_study : List QNRec)
    (sig : Bool) : PyRet :=
  let pval := linregress_p dat_study
  let filtered := dat_study.filter (fun r => N_MIN ≤ r.N && Q_MIN ≤ r.Q)
  if n_MIN ≤ filtered.length then
    if !sig || pval < 5 / 100 then PyRet.pyTrue else PyRet.pyNone
  else PyRet.pyFalse

/-! ### Lemmas about `diffs` and `RandomComposition_weak` -/

theorem diffs_length (a : ℤ) (l : List ℤ) : (diffs a l).length = l.length := by
  induction l generalizing a with
  | nil => rfl
  | cons x xs ih => simp [diffs, ih]

theorem diffs_sum (a : ℤ) (l : List ℤ) : (diffs a l).sum = l.getLastD a - a := by
  induction l generalizing a with
  | nil => simp [diffs]
  | cons x xs ih =>
    rw [diffs, List.sum_cons, ih x, List.getLastD_cons]
    ring

theorem diffs_nonneg (a : ℤ) (l : List ℤ) (h : List.Chain (· ≤ ·) a l) :
    ∀ y ∈ diffs a l, 0 ≤ y := by
  induction l generalizing a with
  | nil => intro y hy; simp [diffs] at hy
  | cons x xs ih =>
    rw [List.chain_cons] at h
    intro y hy
    rw [diffs] at hy
    rcases List.mem_cons.mp hy with rfl | hy
    · have := h.1; omega
    · exact ih x h.2 y hy

theorem range_map_getD_eq_diffs (l : List ℤ) (a b : ℤ) :
    (List.range (l.length + 1)).map
        (fun i => (l ++ [b]).getD i 0 - (a :: l).getD i 0) = diffs a (l ++ [b]) := by
  induction l generalizing a with
  | nil => simp [diffs, List.range_succ]
  | cons x xs ih =>
    rw [List.length_cons, List.range_succ_eq_map, List.map_cons, List.map_map]
    have h0 : ((x :: xs ++ [b]).getD 0 0 - (a :: x :: xs).getD 0 0) = x - a := by
      simp
    rw [h0]
    have hfun : ((fun i => (x :: xs ++ [b]).getD i 0 - (a :: x :: xs).getD i 0) ∘ Nat.succ)
        = fun i => (xs ++ [b]).getD i 0 - (x :: xs).getD i 0 := by
      funext i
      simp [List.getD_cons_succ]
    rw [hfun, ih x]
    simp [diffs]

theorem chain_le_of_sorted (a b : ℤ) (l : List ℤ) (hl : List.Sorted (· ≤ ·) l)
    (ha : ∀ x ∈ l, a ≤ x) (hb : ∀ x ∈ l, x ≤ b) (hab : a ≤ b) :
    List.Chain (· ≤ ·) a (l ++ [b]) := by
  induction l generalizing a with
  | nil => simp [List.chain_cons, hab]
  | cons x xs ih =>
    rw [List.cons_append, List.chain_cons]
    refine ⟨ha x (by simp), ih x hl.of_cons (List.rel_of_sorted_cons hl)
      (fun y hy => hb y (by simp [hy])) (hb x (by simp))⟩

theorem RandomComposition_weak_spec (q n : Nat) (rs : List Nat)
    (hq : 1 ≤ q) (hn : 1 ≤ n) (hlen : rs.length = n - 1) (hmem : ∀ r ∈ rs, r < q) :
    ∃ parts, RandomComposition_weak q n rs = some parts ∧
      parts.length = n ∧ parts.sum = (q : ℤ) ∧ ∀ x ∈ parts, 0 ≤ x := by
  have hq0 : ¬(q = 0 ∨ n = 0) := by omega
  have hperm : (List.insertionSort (· ≤ ·) rs).Perm rs := List.perm_insertionSort _ rs
  have hsort : List.Sorted (· ≤ ·) (List.insertionSort (· ≤ ·) rs) :=
    List.sorted_insertionSort _ rs
  have hsortz : List.Sorted (· ≤ ·)
      ((List.insertionSort (· ≤ ·) rs).map (fun r : Nat => (r : ℤ))) :=
    List.Pairwise.map _ (fun a b h => by exact_mod_cast h) hsort
  have hmemz : ∀ x ∈ (List.insertionSort (· ≤ ·) rs).map (fun r : Nat => (r : ℤ)),
      0 ≤ x ∧ x ≤ (q : ℤ) := by
    intro x hx
    rcases List.mem_map.mp hx with ⟨r, hr, rfl⟩
    have hrq : r < q := hmem r (hperm.mem_iff.mp hr)
    exact ⟨Int.ofNat_nonneg r, by exact_mod_cast Nat.le_of_lt hrq⟩
  have hchain : List.Chain (· ≤ ·) 0
      ((List.insertionSort (· ≤ ·) rs).map (fun r : Nat => (r : ℤ)) ++ [(q : ℤ)]) :=
    chain_le_of_sorted 0 (q : ℤ) _ hsortz (fun x hx => (hmemz x hx).1)
      (fun x hx => (hmemz x hx).2) (by exact_mod_cast Nat.zero_le q)
  refine ⟨diffs 0 ((List.insertionSort (· ≤ ·) rs).map (fun r : Nat => (r : ℤ)) ++ [(q : ℤ)]),
    ?_, ?_, ?_, ?_⟩
  · simp only [RandomComposition_weak, if_neg hq0]
    rw [range_map_getD_eq_diffs]
  · rw [diffs_length, List.length_append, List.length_map, List.length_singleton]
    have hle : (List.insertionSort (· ≤ ·) rs).length = rs.length := hperm.length_eq
    omega
  · rw [diffs_sum, List.getLastD_concat, sub_zero]
  · exact diffs_nonneg 0 _ hchain

theorem RandomComposition_weak_invalid (q n : Nat) (rs : List Nat)
    (h : q = 0 ∨ n = 0) : RandomComposition_weak q n rs = none := by
  rw [RandomComposition_weak, if_pos h]

/-- Claim C1 (corrected): for Q ≥ 1 and N ≥ 1, `RandomComposition_weak(Q, N)`
succeeds and returns exactly N integers, each ≥ 0, summing to exactly Q; the
invalid inputs that raise an error are N < 1 (negative dimensions in
`np.random.randint`) and also Q < 1 (`low >= high` in `np.random.randint`),
the latter being the correction to the claim. -/
theorem claim_C1_composition_sampler (q n : Nat) (rs : List Nat) :
    (1 ≤ q → 1 ≤ n → rs.length = n - 1 → (∀ r ∈ rs, r < q) →
      ∃ parts, RandomComposition_weak q n rs = some parts ∧
        parts.length = n ∧ parts.sum = (q : ℤ) ∧ ∀ x ∈ parts, 0 ≤ x) ∧
    (q = 0 ∨ n = 0 → RandomComposition_weak q n rs = none) := by
  constructor
  · intro hq hn hlen hmem
    exact RandomComposition_weak_spec q n rs hq hn hlen hmem
  · intro h
    exact RandomComposition_weak_invalid q n rs h

/-- Claim C1 counterexample: at Q = 0 (with any N ≥ 1, here N = 2) the call
does not succeed — `np.random.randint(0, 0, 1)` raises `ValueError: low >=
high` — refuting the claim that every Q ≥ 0 succeeds and that the only
input raising an error is N < 1. -/
theorem claim_C1_counterexample :
    RandomComposition_weak 0 2 [0] = none ∧
    (RandomComposition_weak 0 2 [0]).isSome = false := by
  constructor <;> rfl

/-- Claim C1 witness: a concrete successful call (Q = 5, N = 3, randint
draws [2, 4]) and a concrete erroring call (Q = 0). -/
theorem claim_C1_witness :
    (∃ parts, RandomComposition_weak 5 3 [2, 4] = some parts ∧
      parts.length = 3 ∧ parts.sum = (5 : ℤ) ∧ ∀ x ∈ parts, 0 ≤ x) ∧
    RandomComposition_weak 0 3 [] = none :=
  ⟨(claim_C1_composition_sampler 5 3 [2, 4]).1 (by decide) (by decide) (by decide)
      (by decide),
    (claim_C1_composition_sampler 0 3 []).2 (Or.inl rfl)⟩

/-! ### Lemmas about `rand_compositions` -/

theorem desc_sort_spec (comp : List ℤ) :
    (List.insertionSort (· ≤ ·) comp).reverse.length = comp.length ∧
    (List.insertionSort (· ≤ ·) comp).reverse.sum = comp.sum ∧
    (∀ x, x ∈ (List.insertionSort (· ≤ ·) comp).reverse ↔ x ∈ comp) ∧
    List.Sorted (· ≥ ·) (List.insertionSort (· ≤ ·) comp).reverse := by
  have hperm := List.perm_insertionSort (· ≤ ·) comp
  refine ⟨?_, ?_, ?_, ?_⟩
  · rw [List.length_reverse]; exact hperm.length_eq
  · rw [List.sum_reverse]; exact hperm.sum_eq
  · intro x; rw [List.mem_reverse]; exact hperm.mem_iff
  · rw [List.Sorted, List.pairwise_reverse]
    exact List.Pairwise.imp (fun h => h) (List.sorted_insertionSort (· ≤ ·) comp)

theorem rc_loop_ok (q n : Nat) (zeros : Bool) (st : Nat → List Nat)
    (hq : 1 ≤ q) (hn : 1 ≤ n)
    (hst : ∀ i, (st i).length = n - 1 ∧ ∀ r ∈ st i, r < q) :
    ∀ fuel i, ∃ l, rc_loop q n zeros st i fuel = .ok l ∧ l.length = fuel ∧
      ∀ c ∈ l, c.length = n ∧ c.sum = (q : ℤ) ∧ (∀ x ∈ c, 0 ≤ x) ∧
        List.Sorted (· ≥ ·) c := by
  intro fuel
  induction fuel with
  | zero => intro i; exact ⟨[], rfl, rfl, by simp⟩
  | succ fuel ih =>
    intro i
    obtain ⟨parts, hp, hplen, hpsum, hppos⟩ :=
      RandomComposition_weak_spec q n (st i) hq hn (hst i).1 (hst i).2
    obtain ⟨rest, hrest, hrlen, hrprop⟩ := ih (i + 1)
    have hcheck : ¬(parts.length ≠ n ∨ parts.sum ≠ (q : ℤ)) := by
      push_neg; exact ⟨hplen, hpsum⟩
    refine ⟨(List.insertionSort (· ≤ ·) parts).reverse :: rest, ?_, ?_, ?_⟩
    · simp only [rc_loop, hp, if_neg hcheck, hrest]
    · simp [hrlen]
    · intro c hc
      rcases List.mem_cons.mp hc with rfl | hc
      · obtain ⟨h1, h2, h3, h4⟩ := desc_sort_spec parts
        exact ⟨h1.trans hplen, h2.trans hpsum, fun x hx => hppos x ((h3 x).mp hx), h4⟩
      · exact hrprop c hc

theorem rand_compositions_ok (q n ss : Nat) (zeros : Bool) (st : Nat → List Nat)
    (hq : 1 ≤ q) (hn : 1 ≤ n)
    (hst : ∀ i, (st i).length = n - 1 ∧ ∀ r ∈ st i, r < q) :
    ∃ comps, rand_compositions q n ss zeros st = .ok comps ∧
      comps.Nodup ∧ comps.length ≤ ss ∧ (1 ≤ ss → 1 ≤ comps.length) ∧
      ∀ c ∈ comps, c.length = n ∧ c.sum = (q : ℤ) ∧ (∀ x ∈ c, 0 ≤ x) ∧
        List.Sorted (· ≥ ·) c := by
  obtain ⟨l, hl, hlen, hprop⟩ := rc_loop_ok q n zeros st hq hn hst ss 0
  refine ⟨l.dedup, ?_, List.nodup_dedup l, ?_, ?_, ?_⟩
  · rw [rand_compositions, hl]; rfl
  · calc l.dedup.length ≤ l.length := (List.dedup_sublist l).length_le
      _ = ss := hlen
  · intro hss
    have hl : l ≠ [] := by
      intro h; rw [h] at hlen; simp at hlen; omega
    obtain ⟨a, t, rfl⟩ := List.exists_cons_of_ne_nil hl
    have ha : a ∈ (a :: t).dedup := List.mem_dedup.mpr (by simp)
    have hd : (a :: t).dedup ≠ [] := by
      intro hd; rw [hd] at ha; simp at ha
    exact List.length_pos.mpr hd
  · intro c hc
    exact hprop c (List.mem_dedup.mp hc)

/-- Claim C2: for Q ≥ 1, N ≥ 1, sample_size ≥ 1 (and valid randint draw
streams), `rand_compositions` returns a collection of pairwise-distinct
samples, each a non-increasing sequence of N non-negative integers summing
to Q, of size at least 1 and at most the requested sample_size. -/
theorem claim_C2_deduplicating_collector (q n ss : Nat) (zeros : Bool) (st : Nat → List Nat)
    (hq : 1 ≤ q) (hn : 1 ≤ n) (hss : 1 ≤ ss)
    (hst : ∀ i, (st i).length = n - 1 ∧ ∀ r ∈ st i, r < q) :
    ∃ comps, rand_compositions q n ss zeros st = .ok comps ∧
      comps.Nodup ∧ 1 ≤ comps.length ∧ comps.length ≤ ss ∧
      ∀ c ∈ comps, c.length = n ∧ c.sum = (q : ℤ) ∧ (∀ x ∈ c, 0 ≤ x) ∧
        List.Sorted (· ≥ ·) c := by
  obtain ⟨comps, h1, h2, h3, h4, h5⟩ := rand_compositions_ok q n ss zeros st hq hn hst
  exact ⟨comps, h1, h2, h4 hss, h3, h5⟩

/-- Claim C2 witness: Q = 5, N = 3, sample_size = 2, with both iterations
drawing randint values [2, 4]. -/
theorem claim_C2_witness :
    (∀ i : Nat, ([2, 4] : List Nat).length = 3 - 1 ∧ ∀ r ∈ ([2, 4] : List Nat), r < 5) ∧
    (∃ comps, rand_compositions 5 3 2 true (fun _ => [2, 4]) = .ok comps ∧
      comps.Nodup ∧ 1 ≤ comps.length ∧ comps.length ≤ 2 ∧
      ∀ c ∈ comps, c.length = 3 ∧ c.sum = (5 : ℤ) ∧ (∀ x ∈ c, 0 ≤ x) ∧
        List.Sorted (· ≥ ·) c) :=
  ⟨fun _ => ⟨rfl, by decide⟩,
    claim_C2_deduplicating_collector 5 3 2 true (fun _ => [2, 4]) (by decide) (by decide)
      (by decide)
      (fun _ => show ([2, 4] : List Nat).length = 3 - 1 ∧
        ∀ r ∈ ([2, 4] : List Nat), r < 5 by decide)⟩

/-- Claim C9: for every call with Q ≥ 1 and N ≥ 1 (and valid randint draw
streams), every draw passes the internal-consistency check, so
`rand_compositions` returns normally and the fatal error branch (print
diagnostic, terminate the run) is unreachable. -/
theorem claim_C9_fatal_branch_unreachable (q n ss : Nat) (zeros : Bool) (st : Nat → List Nat)
    (hq : 1 ≤ q) (hn : 1 ≤ n)
    (hst : ∀ i, (st i).length = n - 1 ∧ ∀ r ∈ st i, r < q) :
    ∃ comps, rand_compositions q n ss zeros st = .ok comps ∧
      ∀ e, rand_compositions q n ss zeros st ≠ .error e := by
  obtain ⟨comps, h1, _⟩ := rand_compositions_ok q n ss zeros st hq hn hst
  refine ⟨comps, h1, fun e he => ?_⟩
  rw [h1] at he
  exact Except.noConfusion he

/-- Claim C9 witness: Q = 5, N = 3, sample_size = 2, with both iterations
drawing randint values [1, 3]. -/
theorem claim_C9_witness :
    (∀ i : Nat, ([1, 3] : List Nat).length = 3 - 1 ∧ ∀ r ∈ ([1, 3] : List Nat), r < 5) ∧
    (∃ comps, rand_compositions 5 3 2 false (fun _ => [1, 3]) = .ok comps ∧
      ∀ e, rand_compositions 5 3 2 false (fun _ => [1, 3]) ≠ .error e) :=
  ⟨fun _ => ⟨rfl, by decide⟩,
    claim_C9_fatal_branch_unreachable 5 3 2 false (fun _ => [1, 3]) (by decide) (by decide)
      (fun _ => show ([1, 3] : List Nat).length = 3 - 1 ∧
        ∀ r ∈ ([1, 3] : List Nat), r < 5 by decide)⟩

theorem except_toOption_map {ε α β : Type} (f : α → β) (e : Except ε α) :
    (e.map f).toOption = e.toOption.map f := by
  cases e <;> rfl

theorem rc_loop_toOption_zeros (q n : Nat) (st : Nat → List Nat) :
    ∀ fuel i, (rc_loop q n true st i fuel).toOption =
      (rc_loop q n false st i fuel).toOption := by
  intro fuel
  induction fuel with
  | zero => intro i; rfl
  | succ fuel ih =>
    intro i
    rw [rc_loop, rc_loop]
    cases hrc : RandomComposition_weak q n (st i) with
    | none => rfl
    | some comp =>
      dsimp only
      by_cases hch : comp.length ≠ n ∨ comp.sum ≠ (q : ℤ)
      · rw [if_pos hch, if_pos hch]; rfl
      · rw [if_neg hch, if_neg hch]
        have h := ih (i + 1)
        cases h1 : rc_loop q n true st (i + 1) fuel with
        | error e =>
          cases h2 : rc_loop q n false st (i + 1) fuel with
          | error e2 => rfl
          | ok l2 => rw [h1, h2] at h; simp [Except.toOption] at h
        | ok l1 =>
          cases h2 : rc_loop q n false st (i + 1) fuel with
          | error e2 => rw [h1, h2] at h; simp [Except.toOption] at h
          | ok l2 =>
            rw [h1, h2] at h
            simp only [Except.toOption, Option.some.injEq] at h
            rw [h]

/-- Claim C10: for any fixed sequence of random draws, `rand_compositions`
produces the identical samples for zeros = True and zeros = False — the
zeros flag appears only in the diagnostic message of the fatal error
branch (where the run terminates and nothing is returned). -/
theorem claim_C10_zeros_flag_no_effect (q n ss : Nat) (st : Nat → List Nat) :
    (rand_compositions q n ss true st).toOption =
      (rand_compositions q n ss false st).toOption := by
  rw [rand_compositions, rand_compositions, except_toOption_map, except_toOption_map,
    rc_loop_toOption_zeros q n st ss 0]

/-! ### Lemmas about `get_var_for_Q_N` -/

theorem rand_compositions_one (q n : Nat) (rs : List Nat)
    (hq : 1 ≤ q) (hn : 1 ≤ n) (hlen : rs.length = n - 1) (hmem : ∀ r ∈ rs, r < q) :
    ∃ c, rand_compositions q n 1 true (fun _ => rs) = .ok [c] := by
  obtain ⟨l, hl, hlen1, _⟩ :=
    rc_loop_ok q n true (fun _ => rs) hq hn (fun _ => ⟨hlen, hmem⟩) 1 0
  obtain ⟨c, rfl⟩ := List.length_eq_one.mp hlen1
  refine ⟨c, ?_⟩
  rw [rand_compositions, hl]
  show Except.ok ([c].dedup) = Except.ok [c]
  rw [List.dedup_cons_of_not_mem (by simp), List.dedup_nil]

theorem QN_parts_draw_ok (q n : Nat) (a : Analysis) (ps : Nat → List ℤ) (cs : Nat → List Nat)
    (hq : 1 ≤ q) (hn : 1 ≤ n)
    (hcs : ∀ i, (cs i).length = n - 1 ∧ ∀ r ∈ cs i, r < q) :
    ∀ i, ∃ xs, QN_parts_draw q n a ps cs i = .ok xs := by
  intro i
  cases a with
  | partition => exact ⟨ps i, rfl⟩
  | composition =>
    obtain ⟨c, hc⟩ := rand_compositions_one q n (cs i) hq hn (hcs i).1 (hcs i).2
    refine ⟨c, ?_⟩
    show (rand_compositions q n 1 true (fun _ => cs i)).map (fun l => l.headD []) = .ok c
    rw [hc]
    rfl

theorem stop_len_zero (intr : Option Nat) (i : Nat) : stop_len intr i 0 = 0 := by
  cases intr with
  | none => rfl
  | some m =>
    show (if i ≤ m ∧ m < i + 0 then m - i else 0) = 0
    rw [if_neg (by omega)]

theorem stop_len_self (i fuel : Nat) : stop_len (some i) i (fuel + 1) = 0 := by
  show (if i ≤ i ∧ i < i + (fuel + 1) then i - i else fuel + 1) = 0
  rw [if_pos (by omega)]
  omega

theorem stop_len_step (intr : Option Nat) (i fuel : Nat) (h : intr ≠ some i) :
    stop_len intr i (fuel + 1) = stop_len intr (i + 1) fuel + 1 := by
  cases intr with
  | none => rfl
  | some m =>
    have hmi : m ≠ i := by intro he; exact h (by rw [he])
    show (if i ≤ m ∧ m < i + (fuel + 1) then m - i else fuel + 1) =
      (if i + 1 ≤ m ∧ m < i + 1 + fuel then m - (i + 1) else fuel) + 1
    by_cases hc : i + 1 ≤ m ∧ m < i + 1 + fuel
    · rw [if_pos hc, if_pos (by omega)]
      omega
    · rw [if_neg hc, if_neg (by omega)]

theorem gv_loop_ok (q n : Nat) (a : Analysis) (ps : Nat → List ℤ) (cs : Nat → List Nat)
    (intr : Option Nat)
    (hdraw : ∀ j, ∃ xs, QN_parts_draw q n a ps cs j = .ok xs) :
    ∀ fuel i, ∃ l, gv_loop q n a ps cs intr i fuel = .ok l ∧
      l.length = stop_len intr i fuel ∧
      ∀ j, j < l.length → ∃ xs, QN_parts_draw q n a ps cs (i + j) = .ok xs ∧
        l[j]? = some (npVarDdof1 (xs.map (fun x : ℤ => (x : ℚ)))) := by
  intro fuel
  induction fuel with
  | zero =>
    intro i
    exact ⟨[], rfl, (stop_len_zero intr i).symm, fun j hj => absurd hj (by simp)⟩
  | succ fuel ih =>
    intro i
    by_cases hstop : intr = some i
    · refine ⟨[], ?_, ?_, fun j hj => absurd hj (by simp)⟩
      · rw [gv_loop, if_pos hstop]
      · rw [hstop, stop_len_self i fuel]
        rfl
    · obtain ⟨xs, hxs⟩ := hdraw i
      obtain ⟨rest, hrest, hrlen, hrprop⟩ := ih (i + 1)
      refine ⟨npVarDdof1 (xs.map (fun x : ℤ => (x : ℚ))) :: rest, ?_, ?_, ?_⟩
      · simp only [gv_loop, if_neg hstop, hxs, hrest]
      · rw [List.length_cons, hrlen, stop_len_step intr i fuel hstop]
      · intro j hj
        cases j with
        | zero => exact ⟨xs, by rw [Nat.add_zero]; exact hxs, by simp⟩
        | succ j =>
          have hj2 : j < rest.length := by
            rw [List.length_cons] at hj; omega
          obtain ⟨ys, hys, hl⟩ := hrprop j hj2
          refine ⟨ys, ?_, ?_⟩
          · rw [show i + (j + 1) = (i + 1) + j by omega]
            exact hys
          · simpa using hl

/-- Claim C3: `get_var_for_Q_N` never fails on deadline expiry.  With a
nonzero time limit: if the alarm fires at the start of iteration k < ss
the call returns exactly the k variances computed so far; if no alarm fires
it returns exactly ss values; in both cases the j-th value is the sample
variance with Bessel's correction (ddof = 1) of the j-th drawn partition or
composition. -/
theorem claim_C3_variance_engine_timeout (q n ss t_limit : Nat) (a : Analysis)
    (ps : Nat → List ℤ) (cs : Nat → List Nat) (intr : Option Nat)
    (hq : 1 ≤ q) (hn : 1 ≤ n)
    (hcs : ∀ i, (cs i).length = n - 1 ∧ ∀ r ∈ cs i, r < q)
    (ht : t_limit ≠ 0) :
    ∃ l, get_var_for_Q_N q n ss t_limit a ps cs intr = .ok l ∧
      (intr = none → l.length = ss) ∧
      (∀ k, intr = some k → l.length = min k ss) ∧
      ∀ j, j < l.length → ∃ xs, QN_parts_draw q n a ps cs j = .ok xs ∧
        l[j]? = some (npVarDdof1 (xs.map (fun x : ℤ => (x : ℚ)))) := by
  obtain ⟨l, hl, hlen, hprop⟩ := gv_loop_ok q n a ps cs intr
    (QN_parts_draw_ok q n a ps cs hq hn hcs) ss 0
  refine ⟨l, ?_, ?_, ?_, ?_⟩
  · rw [get_var_for_Q_N, if_neg ht]
    exact hl
  · intro h
    rw [hlen, h]
    rfl
  · intro k h
    rw [hlen, h]
    show (if 0 ≤ k ∧ k < 0 + ss then k - 0 else ss) = min k ss
    by_cases hk : k < ss
    · rw [if_pos (by omega)]
      omega
    · rw [if_neg (by omega)]
      omega
  · simpa using hprop

/-- Claim C3 witness: Q = 4, N = 2, sample_size = 2, t_limit = 5 seconds,
composition mode, every iteration drawing randint value [1], no alarm
firing. -/
theorem claim_C3_witness :
    (∀ i : Nat, ([1] : List Nat).length = 2 - 1 ∧ ∀ r ∈ ([1] : List Nat), r < 4) ∧
    (∃ l, get_var_for_Q_N 4 2 2 5 Analysis.composition (fun _ => []) (fun _ => [1])
        none = .ok l ∧
      ((none : Option Nat) = none → l.length = 2) ∧
      (∀ k, (none : Option Nat) = some k → l.length = min k 2) ∧
      ∀ j, j < l.length → ∃ xs,
        QN_parts_draw 4 2 Analysis.composition (fun _ => []) (fun _ => [1]) j = .ok xs ∧
        l[j]? = some (npVarDdof1 (xs.map (fun x : ℤ => (x : ℚ))))) :=
  ⟨fun _ => ⟨rfl, by decide⟩,
    claim_C3_variance_engine_timeout 4 2 2 5 Analysis.composition (fun _ => [])
      (fun _ => [1]) none (by decide) (by decide)
      (fun _ => show ([1] : List Nat).length = 2 - 1 ∧ ∀ r ∈ ([1] : List Nat), r < 4
        by decide)
      (by decide)⟩

/-- Claim C7 (corrected): `signal.alarm(0)` cancels any pending alarm and
schedules none, so with t_limit = 0 no deadline is armed at all and
`get_var_for_Q_N` returns the FULL sample_size variances — not an empty
sequence or at most one value as the claim states. -/
theorem claim_C7_zero_time_limit (q n ss : Nat) (a : Analysis)
    (ps : Nat → List ℤ) (cs : Nat → List Nat) (intr : Option Nat)
    (hq : 1 ≤ q) (hn : 1 ≤ n)
    (hcs : ∀ i, (cs i).length = n - 1 ∧ ∀ r ∈ cs i, r < q) :
    ∃ l, get_var_for_Q_N q n ss 0 a ps cs intr = .ok l ∧ l.length = ss ∧
      ∀ j, j < l.length → ∃ xs, QN_parts_draw q n a ps cs j = .ok xs ∧
        l[j]? = some (npVarDdof1 (xs.map (fun x : ℤ => (x : ℚ)))) := by
  obtain ⟨l, hl, hlen, hprop⟩ := gv_loop_ok q n a ps cs none
    (QN_parts_draw_ok q n a ps cs hq hn hcs) ss 0
  refine ⟨l, ?_, ?_, ?_⟩
  · rw [get_var_for_Q_N, if_pos rfl]
    exact hl
  · rw [hlen]
    rfl
  · simpa using hprop

/-- Claim C7 counterexample: with t_limit = 0, sample_size = 3, and a
pending alarm at iteration 0, the call still returns 3 variance values
(the alarm was cancelled by `signal.alarm(0)`), refuting the claim that it
returns an empty sequence or at most one value. -/
theorem claim_C7_counterexample :
    (get_var_for_Q_N 3 2 3 0 Analysis.partition (fun _ => [1, 2]) (fun _ => [])
        (some 0)).map List.length = .ok 3 ∧ ¬((3 : Nat) ≤ 1) := by
  constructor
  · obtain ⟨l, hl, hlen, _⟩ := gv_loop_ok 3 2 Analysis.partition (fun _ => [1, 2])
      (fun _ => []) none (fun j => ⟨[1, 2], rfl⟩) 3 0
    rw [get_var_for_Q_N, if_pos rfl, hl]
    show Except.ok l.length = Except.ok 3
    rw [hlen]
    rfl
  · decide

/-- Claim C7 witness (for the corrected theorem): Q = 4, N = 2, sample_size
= 3, t_limit = 0, composition mode, alarm nominally pending at iteration 1
but never armed. -/
theorem claim_C7_witness :
    (∀ i : Nat, ([2] : List Nat).length = 2 - 1 ∧ ∀ r ∈ ([2] : List Nat), r < 4) ∧
    (∃ l, get_var_for_Q_N 4 2 3 0 Analysis.composition (fun _ => []) (fun _ => [2])
        (some 1) = .ok l ∧ l.length = 3 ∧
      ∀ j, j < l.length → ∃ xs,
        QN_parts_draw 4 2 Analysis.composition (fun _ => []) (fun _ => [2]) j = .ok xs ∧
        l[j]? = some (npVarDdof1 (xs.map (fun x : ℤ => (x : ℚ))))) :=
  ⟨fun _ => ⟨rfl, by decide⟩,
    claim_C7_zero_time_limit 4 2 3 Analysis.composition (fun _ => []) (fun _ => [2])
      (some 1) (by decide) (by decide)
      (fun _ => show ([2] : List Nat).length = 2 - 1 ∧ ∀ r ∈ ([2] : List Nat), r < 4
        by decide)⟩

/-! ### Lemmas about `sample_var` and `TL_analysis` output gating -/

theorem sample_var_rows_short {α : Type} (sample_size : Nat)
    (data : List (α × List (Option ℚ)))
    (hex : ∃ p ∈ data, (p.2).length ≠ sample_size) :
    (sample_var_rows sample_size data).length < data.length := by
  induction data with
  | nil =>
    obtain ⟨p, hp, _⟩ := hex
    exact absurd hp (List.not_mem_nil p)
  | cons hd tl ih =>
    obtain ⟨p, hp, hne⟩ := hex
    rcases List.mem_cons.mp hp with rfl | hp2
    · obtain ⟨rec, vars⟩ := p
      rw [sample_var_rows, if_neg hne]
      simp
    · by_cases hhd : hd.2.length = sample_size
      · obtain ⟨rec, vars⟩ := hd
        rw [sample_var_rows, if_pos hhd, List.length_cons, List.length_cons]
        exact Nat.succ_lt_succ (ih ⟨p, hp2, hne⟩)
      · obtain ⟨rec, vars⟩ := hd
        rw [sample_var_rows, if_neg hhd]
        simp

theorem TL_var_parts_short (sample_size : Nat) (results : List (List (Option ℚ)))
    (hex : ∃ v ∈ results, v.length ≠ sample_size) :
    (TL_var_parts sample_size results).length < results.length := by
  induction results with
  | nil =>
    obtain ⟨v, hv, _⟩ := hex
    exact absurd hv (List.not_mem_nil v)
  | cons hd tl ih =>
    obtain ⟨v, hv, hne⟩ := hex
    rcases List.mem_cons.mp hv with rfl | hv2
    · rw [TL_var_parts, if_neg hne]
      simp
    · by_cases hhd : hd.length = sample_size
      · rw [TL_var_parts, if_pos hhd, List.length_cons, List.length_cons]
        exact Nat.succ_lt_succ (ih ⟨v, hv2, hne⟩)
      · rw [TL_var_parts, if_neg hhd]
        simp

/-- Claim C4: in both `sample_var` and `TL_analysis`, if any Q-N combination
of a study yields fewer than sample_size variance values, no output row at
all is written for that study — the per-study output is all-or-nothing. -/
theorem claim_C4_all_or_nothing {α : Type} (sample_size : Nat)
    (data : List (α × List (Option ℚ)))
    (hex : ∃ p ∈ data, (p.2).length < sample_size) :
    sample_var_written sample_size data = [] ∧
    TL_analysis_writes sample_size (data.map Prod.snd) = false := by
  obtain ⟨p, hp, hlt⟩ := hex
  constructor
  · have h := sample_var_rows_short sample_size data ⟨p, hp, Nat.ne_of_lt hlt⟩
    simp only [sample_var_written]
    rw [if_neg (by omega)]
  · have h := TL_var_parts_short sample_size (data.map Prod.snd)
      ⟨p.2, List.mem_map.mpr ⟨p, hp, rfl⟩, Nat.ne_of_lt hlt⟩
    rw [TL_analysis_writes]
    simp only [beq_eq_false_iff_ne]
    omega

/-- Claim C4 witness: a one-record study whose sampling returned no
variances with sample_size = 1. -/
theorem claim_C4_witness :
    (∃ p ∈ [((0 : Nat), ([] : List (Option ℚ)))], (p.2).length < 1) ∧
    (sample_var_written 1 [((0 : Nat), ([] : List (Option ℚ)))] = [] ∧
      TL_analysis_writes 1 ([((0 : Nat), ([] : List (Option ℚ)))].map Prod.snd)
        = false) :=
  ⟨⟨((0 : Nat), ([] : List (Option ℚ))), by simp, by simp⟩,
    claim_C4_all_or_nothing 1 [((0 : Nat), ([] : List (Option ℚ)))]
      ⟨((0 : Nat), ([] : List (Option ℚ))), by simp, by simp⟩⟩

/-! ### The inclusion filter -/

/-- Claim C5 (corrected): `inclusion_criteria` returns `True` exactly when
the post-filter pair count is at least n_MIN and (sig is not required or
the pre-filter regression p-value is below 0.05); it returns `False`
exactly when the post-filter count is below n_MIN; but when the count check
passes and the significance check fails it falls off the end of the
function body and returns `None` — a falsy non-boolean — rather than
`False` as the claim states. -/
theorem claim_C5_inclusion_filter (p : List QNRec → ℚ) (recs : List QNRec) (sig : Bool) :
    (inclusion_criteria p recs sig = PyRet.pyTrue ↔
      n_MIN ≤ (recs.filter (fun r => N_MIN ≤ r.N && Q_MIN ≤ r.Q)).length ∧
        (sig = false ∨ p recs < 5 / 100)) ∧
    (inclusion_criteria p recs sig = PyRet.pyFalse ↔
      (recs.filter (fun r => N_MIN ≤ r.N && Q_MIN ≤ r.Q)).length < n_MIN) ∧
    (inclusion_criteria p recs sig = PyRet.pyNone ↔
      n_MIN ≤ (recs.filter (fun r => N_MIN ≤ r.N && Q_MIN ≤ r.Q)).length ∧
        sig = true ∧ ¬(p recs < 5 / 100)) := by
  have hbool : ((!sig || decide (p recs < 5 / 100)) = true) ↔
      (sig = false ∨ p recs < 5 / 100) := by
    cases sig <;> simp
  simp only [inclusion_criteria]
  by_cases h1 : n_MIN ≤ (recs.filter (fun r => N_MIN ≤ r.N && Q_MIN ≤ r.Q)).length
  · rw [if_pos h1]
    by_cases h2 : sig = false ∨ p recs < 5 / 100
    · rw [if_pos (hbool.mpr h2)]
      refine ⟨⟨fun _ => ⟨h1, h2⟩, fun _ => rfl⟩, ?_, ?_⟩
      · exact ⟨fun hc => absurd hc (by decide), fun hc => absurd hc (by omega)⟩
      · constructor
        · intro hc
          exact absurd hc (by decide)
        · rintro ⟨-, hsig, hnp⟩
          rcases h2 with h | h
          · rw [hsig] at h
            exact absurd h (by decide)
          · exact absurd h hnp
    · rw [if_neg (fun hb => h2 (hbool.mp hb))]
      refine ⟨?_, ?_, ?_⟩
      · constructor
        · intro hc
          exact absurd hc (by decide)
        · rintro ⟨-, hor⟩
          exact absurd hor h2
      · exact ⟨fun hc => absurd hc (by decide), fun hc => absurd hc (by omega)⟩
      · constructor
        · intro _
          refine ⟨h1, ?_, fun hp => h2 (Or.inr hp)⟩
          cases hsig : sig
          · exact absurd (Or.inl hsig) h2
          · rfl
        · intro _
          rfl
  · rw [if_neg h1]
    refine ⟨?_, ?_, ?_⟩
    · constructor
      · intro hc
        exact absurd hc (by decide)
      · rintro ⟨hc, -⟩
        exact absurd hc h1
    · exact ⟨fun _ => by omega, fun _ => rfl⟩
    · constructor
      · intro hc
        exact absurd hc (by decide)
      · rintro ⟨hc, -⟩
        exact absurd hc h1

/-- Claim C5 counterexample: a study of five records each with Q = 5 and
N = 3 (so exactly n_MIN = 5 pairs survive the filter), sig required and
p-value 0.1 ≥ 0.05: the function returns `None`, which is neither the
boolean `True` nor the boolean `False` the claim promises. -/
theorem claim_C5_counterexample :
    inclusion_criteria (fun _ => 1 / 10)
        [⟨5, 3⟩, ⟨5, 3⟩, ⟨5, 3⟩, ⟨5, 3⟩, ⟨5, 3⟩] true = PyRet.pyNone ∧
    PyRet.pyNone ≠ PyRet.pyTrue ∧ PyRet.pyNone ≠ PyRet.pyFalse := by
  have hfilter : (([⟨5, 3⟩, ⟨5, 3⟩, ⟨5, 3⟩, ⟨5, 3⟩, ⟨5, 3⟩] : List QNRec).filter
      (fun r => N_MIN ≤ r.N && Q_MIN ≤ r.Q)) =
      [⟨5, 3⟩, ⟨5, 3⟩, ⟨5, 3⟩, ⟨5, 3⟩, ⟨5, 3⟩] := by
    decide
  have hp : ¬((1 : ℚ) / 10 < 5 / 100) := by norm_num
  refine ⟨?_, by decide, by decide⟩
  simp only [inclusion_criteria, hfilter]
  rw [if_pos (by decide)]
  simp only [Bool.not_true, Bool.false_or, decide_eq_true_eq]
  rw [if_neg hp]

/-! ### The median-of-slopes summary entry -/

theorem npMedian_singleton (b : ℚ) : npMedian [b] = some b := by
  simp [npMedian, List.insertionSort, List.orderedInsert]

/-- Claim C6: the median-of-slopes entry in the summary row of
`TL_analysis` is `np.median(b)` with `b` the slope of the last simulation
iteration only, so the written value equals that last slope itself, and in
general it differs from the median of the accumulated slope list. -/
theorem claim_C6_median_last_slope :
    (∀ (b_list : List ℚ) (b : ℚ), b_list.getLast? = some b →
      TL_median_b_entry b_list = some b) ∧
    (∃ b_list : List ℚ, TL_median_b_entry b_list ≠ npMedian b_list) := by
  constructor
  · intro bs b hb
    rw [TL_median_b_entry, hb]
    exact npMedian_singleton b
  · refine ⟨[0, 0, 1], ?_⟩
    have h1 : TL_median_b_entry [(0 : ℚ), 0, 1] = some 1 := by
      rw [TL_median_b_entry]
      have hlast : [(0 : ℚ), 0, 1].getLast? = some 1 := rfl
      rw [hlast]
      exact npMedian_singleton 1
    have h2 : npMedian [(0 : ℚ), 0, 1] = some 0 := by
      rw [npMedian]
      norm_num [List.insertionSort, List.orderedInsert]
    rw [h1, h2]
    simp

/-- Claim C6 witness: for the slope list [-2, 5] the written entry is the
last slope 5. -/
theorem claim_C6_witness :
    [(-2 : ℚ), 5].getLast? = some 5 ∧ TL_median_b_entry [(-2 : ℚ), 5] = some 5 :=
  ⟨rfl, claim_C6_median_last_slope.1 [(-2 : ℚ), 5] 5 rfl⟩

/-! ### The z-score -/

/-- Claim C8 (corrected): when `emp_var` equals the mean of `sim_var_list`,
`get_z_score` returns exactly 0 PROVIDED the sample variance of
`sim_var_list` is defined and nonzero (at least two elements, not all
equal); for a constant list the standard deviation is 0 and the division
0/0 yields nan, not 0. -/
theorem claim_C8_z_score_zero (emp : ℚ) (sim : List ℚ) (sd v m : ℚ)
    (hv : npVarDdof1 sim = some v) (hm : npMean sim = some m)
    (hsd_nonneg : 0 ≤ sd) (hsd_sq : sd * sd = v) (hvne : v ≠ 0) (hemp : emp = m) :
    get_z_score emp sim sd = some 0 := by
  have hsd : sd ≠ 0 := by
    intro h
    rw [h] at hsd_sq
    simp at hsd_sq
    exact hvne hsd_sq.symm
  rw [get_z_score, hv, hm]
  show (if sd = 0 then none else some ((emp - m) / sd)) = some 0
  rw [if_neg hsd, hemp, sub_self, zero_div]

/-- Claim C8 counterexample: for the constant list [1, 1] the mean is 1 and
the sample variance is 0, so at `emp_var = mean` (and sd_sim = 0, the exact
square root of the variance) the z-score is 0/0 = nan, not 0. -/
theorem claim_C8_counterexample :
    npMean [(1 : ℚ), 1] = some 1 ∧ npVarDdof1 [(1 : ℚ), 1] = some 0 ∧
    (0 : ℚ) * 0 = 0 ∧ get_z_score 1 [(1 : ℚ), 1] 0 = none := by
  have hv : npVarDdof1 [(1 : ℚ), 1] = some 0 := by
    rw [npVarDdof1]
    norm_num
  have hm : npMean [(1 : ℚ), 1] = some 1 := by
    rw [npMean]
    norm_num
  refine ⟨hm, hv, by norm_num, ?_⟩
  rw [get_z_score, hv, hm]
  show (if (0 : ℚ) = 0 then none else some ((1 - 1) / 0)) = none
  rw [if_pos rfl]

/-- Claim C8 witness: sim_var_list = [0, 1, 2] has mean 1 and sample
variance 1, whose square root is sd = 1; at emp_var = 1 the z-score is
exactly 0. -/
theorem claim_C8_witness :
    npVarDdof1 [(0 : ℚ), 1, 2] = some 1 ∧ npMean [(0 : ℚ), 1, 2] = some 1 ∧
    (0 : ℚ) ≤ 1 ∧ (1 : ℚ) * 1 = 1 ∧ (1 : ℚ) ≠ 0 ∧
    get_z_score 1 [(0 : ℚ), 1, 2] 1 = some 0 := by
  have hv : npVarDdof1 [(0 : ℚ), 1, 2] = some 1 := by
    rw [npVarDdof1]
    norm_num
  have hm : npMean [(0 : ℚ), 1, 2] = some 1 := by
    rw [npMean]
    norm_num
  exact ⟨hv, hm, by norm_num, by norm_num, by norm_num,
    claim_C8_z_score_zero 1 [(0 : ℚ), 1, 2] 1 1 1 hv hm (by norm_num) (by norm_num)
      (by norm_num) rfl⟩
